import Mathlib

/-!
Shallow embedding of the ECS engine in `ECS.h` (redxdev/ECS): a World owning
an insertion-ordered entity list, an active/disabled system split, and a
type-indexed event bus.  C++ type identities (`std::type_index`) are modelled
as `Nat`; component payloads, subscriber pointers and system pointers are
likewise modelled as `Nat` identities.  Pointer dereference of an `Entity*`
owned by the world is modelled as lookup by entity id in the world's list.
Operations that fire events return an explicit event log; operations whose
claims are about the *order* of internal actions return an action trace.
-/

/-- Models `ECS::TypeIndex` (`std::type_index`): an abstract type identity. -/
abbrev TypeIndex := Nat

/-- Models the payload of a component value of some type `T`. -/
abbrev Val := Nat

/-- Models an `Internal::BaseEventSubscriber*`: a subscriber identity. -/
abbrev SubId := Nat

/-- Models an `EntitySystem*`: a system identity. -/
abbrev SysId := Nat

/-- Models `ECS::Entity` (ECS.h lines 394-523): id, component map
(`std::unordered_map<TypeIndex, BaseComponentContainer*>`, keys unique,
modelled as an association list), and the pending-destroy flag. -/
structure Entity where
  id : Nat
  components : List (TypeIndex × Val)
  bPendingDestroy : Bool := false
deriving DecidableEq, Repr

/-- Events emitted by the world (ECS.h `Events` namespace), tagged with the
entity id (and component type index where applicable). -/
inductive Event where
  | onEntityCreated (entId : Nat)
  | onEntityDestroyed (entId : Nat)
  | onComponentAssigned (t : TypeIndex) (entId : Nat)
  | onComponentRemoved (t : TypeIndex) (entId : Nat)
deriving DecidableEq, Repr

/-- System lifecycle hooks invoked by the world (`configure`, `unconfigure`,
`tick` on an `EntitySystem`). -/
inductive SysEvent where
  | configure (s : SysId)
  | unconfigure (s : SysId)
  | tickSys (s : SysId)
deriving DecidableEq, Repr

/-- Models `ECS::World` (ECS.h lines 530-825): insertion-ordered entity
vector, active system vector `systems`, `disabledSystems`, the subscriber
map `TypeIndex -> vector<BaseEventSubscriber*>` (modelled as an association
list with unique keys), and `lastEntityId`. -/
structure World where
  entities : List Entity
  systems : List SysId
  disabledSystems : List SysId
  subscribers : List (TypeIndex × List SubId)
  lastEntityId : Nat := 0
deriving DecidableEq, Repr

/-- The empty world produced by `World::createWorld`. -/
def World.emptyWorld : World := ⟨[], [], [], [], 0⟩

/-! ## Entity operations -/

/-- `Entity::has<T>` (ECS.h 424-429): `components.find(index) != components.end()`. -/
def Entity.has (e : Entity) (t : TypeIndex) : Bool :=
  (e.components.find? (fun p => p.1 = t)).isSome

/-- `Entity::has<T, V, Types...>` (ECS.h 434-438): conjunction of the
per-type checks. -/
def Entity.hasAll (e : Entity) (ts : List TypeIndex) : Bool :=
  ts.all (fun t => e.has t)

/-- `Entity::get<T>` (ECS.h 1101-1111): a `ComponentHandle<T>` wrapping the
live value if present (`some v`), else the invalid handle (`none`). -/
def Entity.get (e : Entity) (t : TypeIndex) : Option Val :=
  (e.components.find? (fun p => p.1 = t)).map (fun p => p.2)

/-- `Entity::assign<T>(args)` (ECS.h 1071-1099).  If a container for `T`
exists, `container->data = T(args...)` overwrites the stored value in place;
otherwise a fresh container is allocated and inserted.  Both branches emit
one `OnComponentAssigned<T>` and return a handle to the live slot (`some v`,
the address `&container->data` always being non-null).  Returns
(updated entity, returned handle, emitted events). -/
def Entity.assign (e : Entity) (t : TypeIndex) (v : Val) :
    Entity × Option Val × List Event :=
  match e.components.find? (fun p => p.1 = t) with
  | some _ =>
    -- found: container->data = T(args...)
    ({ e with components :=
        e.components.map (fun p => if p.1 = t then (p.1, v) else p) },
      some v, [Event.onComponentAssigned t e.id])
  | none =>
    -- not found: allocate, construct, components.insert({index, container})
    ({ e with components := e.components ++ [(t, v)] },
      some v, [Event.onComponentAssigned t e.id])

/-- Internal actions performed by `Entity::remove<T>`, in order:
`found->second->removed(this)` emits `OnComponentRemoved<T>` while the data
is still alive, then `found->second->destroy(world)` deallocates the
container. -/
inductive RemAction where
  | emitRemoved (t : TypeIndex) (entId : Nat)
  | deallocate (t : TypeIndex)
deriving DecidableEq, Repr

/-- `Entity::remove<T>` (ECS.h 453-468): if a container for `T` is found,
fire its `removed` hook, then `destroy` it, then erase the map entry and
return `true`; otherwise return `false`.  Returns
(updated entity, return value, ordered action trace). -/
def Entity.remove (e : Entity) (t : TypeIndex) : Entity × Bool × List RemAction :=
  match e.components.find? (fun p => p.1 = t) with
  | some _ =>
    ({ e with components := e.components.eraseP (fun p => p.1 = t) }, true,
      [RemAction.emitRemoved t e.id, RemAction.deallocate t])
  | none => (e, false, [])

/-- The `OnComponentRemoved` emissions produced when an entity is destroyed:
`~Entity` (ECS.h 408-411) calls `removeAll` (473-482), whose loop fires the
`removed` hook of every container. -/
def entityDeallocEvents (e : Entity) : List Event :=
  e.components.map (fun p => Event.onComponentRemoved p.1 e.id)

/-! ## World: event bus -/

/-- `World::subscribe<T>` (ECS.h 670-686): if no bucket exists for the type
index, insert a fresh one holding the subscriber; otherwise `push_back`
unconditionally (no duplicate check). -/
def World.subscribe (w : World) (t : TypeIndex) (s : SubId) : World :=
  match w.subscribers.find? (fun kv => kv.1 = t) with
  | none => { w with subscribers := w.subscribers ++ [(t, [s])] }
  | some _ =>
    { w with subscribers :=
        w.subscribers.map (fun kv => if kv.1 = t then (kv.1, kv.2 ++ [s]) else kv) }

/-- `World::unsubscribe<T>` (ECS.h 691-704): erase-remove every occurrence
of the subscriber from the bucket; if the bucket becomes empty, erase the
bucket from the map. -/
def World.unsubscribe (w : World) (t : TypeIndex) (s : SubId) : World :=
  match w.subscribers.find? (fun kv => kv.1 = t) with
  | none => w
  | some kv =>
    let remaining := kv.2.filter (fun x => x ≠ s)
    if remaining.length = 0 then
      { w with subscribers := w.subscribers.filter (fun kv2 => kv2.1 ≠ t) }
    else
      { w with subscribers :=
          w.subscribers.map (fun kv2 => if kv2.1 = t then (kv2.1, remaining) else kv2) }

/-- The loop body of `World::unsubscribeAll` (ECS.h 709-719).  The C++ loop
is `for (auto kv : subscribers)`: `kv` is a by-value COPY of the map entry,
so `kv.second.erase(std::remove(...))` mutates only the copy; the only
mutation of the real map is `subscribers.erase(kv.first)`, executed when the
copy became empty.  Hence a bucket whose copy stays non-empty is left in the
map completely unchanged. -/
def unsubAllLoop (subs : List (TypeIndex × List SubId)) (s : SubId) :
    List (TypeIndex × List SubId) :=
  match subs with
  | [] => []
  | kv :: rest =>
    let kvCopy := (kv.1, kv.2.filter (fun x => x ≠ s))
    if kvCopy.2.length = 0 then
      unsubAllLoop rest s        -- subscribers.erase(kv.first)
    else
      kv :: unsubAllLoop rest s  -- real bucket untouched (only the copy changed)

/-- `World::unsubscribeAll` (ECS.h 709-719). -/
def World.unsubscribeAll (w : World) (s : SubId) : World :=
  { w with subscribers := unsubAllLoop w.subscribers s }

/-- `World::emit<T>` (ECS.h 724-736): if a bucket exists for the type index,
invoke `receive` on every subscriber in bucket order.  Returns the ordered
list of subscribers whose `receive` hook is invoked. -/
def World.emitReceivers (w : World) (t : TypeIndex) : List SubId :=
  match w.subscribers.find? (fun kv => kv.1 = t) with
  | none => []
  | some kv => kv.2

/-- Number of occurrences of a subscriber in the bucket `emit<T>` would walk. -/
def World.countSub (w : World) (t : TypeIndex) (s : SubId) : Nat :=
  (w.emitReceivers t).count s

/-! ## World: entity lifecycle -/

/-- `World::create` (ECS.h 588-598): `++lastEntityId`, allocate and append
an entity with that id, emit `OnEntityCreated`.  Returns
(updated world, created entity, emitted events). -/
def World.create (w : World) : World × Entity × List Event :=
  let ent : Entity := { id := w.lastEntityId + 1, components := [] }
  ({ w with lastEntityId := w.lastEntityId + 1, entities := w.entities ++ [ent] },
    ent, [Event.onEntityCreated (w.lastEntityId + 1)])

/-- `ent->bPendingDestroy = true` for the entity object referenced by id. -/
def World.markPending (w : World) (entId : Nat) : World :=
  { w with entities :=
      w.entities.map (fun x => if x.id = entId then { x with bPendingDestroy := true } else x) }

/-- The physical removal in `World::destroy` (ECS.h 977-979 and 991-993):
`entities.erase(std::remove(...))` drops every occurrence of the pointer
from the vector (then the entity is destructed and deallocated). -/
def World.eraseEntity (w : World) (entId : Nat) : World :=
  { w with entities := w.entities.filter (fun x => x.id ≠ entId) }

/-- `World::destroy` (ECS.h 968-995).  The `Entity*` argument is modelled
as `Option Nat`: `none` is the null pointer, `some entId` a pointer to the
world-owned entity with that id (a pointer outside the world is outside the
contract, modelled as a no-op on failed lookup).  Returns
(updated world, emitted events); deallocation fires the `removed` hooks of
the entity's containers (see `entityDeallocEvents`). -/
def World.destroy (w : World) (ref : Option Nat) (immediate : Bool) :
    World × List Event :=
  match ref with
  | none => (w, [])
  | some entId =>
    match w.entities.find? (fun e => e.id = entId) with
    | none => (w, [])
    | some e =>
      if e.bPendingDestroy then
        if immediate then
          (w.eraseEntity entId, entityDeallocEvents e)
        else
          (w, [])
      else
        if immediate then
          ((w.markPending entId).eraseEntity entId,
            Event.onEntityDestroyed entId ::
              entityDeallocEvents { e with bPendingDestroy := true })
        else
          (w.markPending entId, [Event.onEntityDestroyed entId])

/-- The `(state, entity)` pairs at each `OnEntityDestroyed` emission of
`World::destroy`: the flag is set (ECS.h 985) before the emit (987), so the
recorded state is `markPending` applied and the recorded entity carries
`bPendingDestroy = true`. -/
def World.destroyTrace (w : World) (ref : Option Nat) (_immediate : Bool) :
    List (World × Entity) :=
  match ref with
  | none => []
  | some entId =>
    match w.entities.find? (fun e => e.id = entId) with
    | none => []
    | some e =>
      if e.bPendingDestroy then []
      else [(w.markPending entId, { e with bPendingDestroy := true })]

/-- `World::cleanup` (ECS.h 997-1013): `remove_if` walks the vector in
order, destroys+deallocates every pending-destroy entity counting them, and
erases them; returns `count > 0`.  Returns
(updated world, return value, emitted events). -/
def World.cleanup (w : World) : World × Bool × List Event :=
  let removed := w.entities.filter (fun e => e.bPendingDestroy)
  ({ w with entities := w.entities.filter (fun e => !e.bPendingDestroy) },
    decide (removed.length > 0),
    removed.flatMap entityDeallocEvents)

/-- `World::reset` (ECS.h 1015-1030): for each entity in order, if not
pending-destroy set the flag and emit `OnEntityDestroyed`; destroy and
deallocate it either way; finally clear the vector and set
`lastEntityId = 0`.  Returns (updated world, emitted events). -/
def World.reset (w : World) : World × List Event :=
  ({ w with entities := [], lastEntityId := 0 },
    w.entities.flatMap (fun e =>
      (if e.bPendingDestroy then [] else [Event.onEntityDestroyed e.id]) ++
        entityDeallocEvents e))

/-- The loop of `World::reset` (ECS.h 1017-1026) and of `World::~World`
(ECS.h 949-959), which share the same per-entity sequence: if the entity at
position `i` is not pending-destroy, set its flag and emit
`OnEntityDestroyed`.  Records the `(state, entity)` pair at each emission;
flag mutations accumulate, deallocations leave the vector untouched until
after the loop. -/
def resetTraceFrom (w : World) (i : Nat) (fuel : Nat) : List (World × Entity) :=
  match fuel with
  | 0 => []
  | fuel + 1 =>
    match w.entities.get? i with
    | none => []
    | some e =>
      if e.bPendingDestroy then
        resetTraceFrom w (i + 1) fuel
      else
        let e1 := { e with bPendingDestroy := true }
        let w1 := { w with entities := w.entities.set i e1 }
        (w1, e1) :: resetTraceFrom w1 (i + 1) fuel

/-- The `(state, entity)` pairs at each `OnEntityDestroyed` emission of
`World::reset` (ECS.h 1015-1030). -/
def World.resetTrace (w : World) : List (World × Entity) :=
  resetTraceFrom w 0 w.entities.length

/-- The `(state, entity)` pairs at each `OnEntityDestroyed` emission of
`World::~World` (ECS.h 942-966), whose entity loop (949-959) performs the
same mark-then-emit sequence as `reset`. -/
def World.teardownTrace (w : World) : List (World × Entity) :=
  resetTraceFrom w 0 w.entities.length

/-- `World::getById` (ECS.h 1047-1060): linear scan for the id, `nullptr`
(modelled `none`) for the invalid id, ids beyond `lastEntityId`, or a miss. -/
def World.getById (w : World) (entId : Nat) : Option Entity :=
  if entId = 0 ∨ entId > w.lastEntityId then none
  else w.entities.find? (fun e => e.id = entId)

/-! ## World: system lifecycle and tick -/

/-- `World::registerSystem` (ECS.h 630-636): append to the active list, call
`configure`.  Returns (updated world, hook invocations). -/
def World.registerSystem (w : World) (s : SysId) : World × List SysEvent :=
  ({ w with systems := w.systems ++ [s] }, [SysEvent.configure s])

/-- `World::unregisterSystem` (ECS.h 641-645): erase-remove the system from
`systems` (the active list; `disabledSystems` is not touched), call
`unconfigure`.  Returns (updated world, hook invocations). -/
def World.unregisterSystem (w : World) (s : SysId) : World × List SysEvent :=
  ({ w with systems := w.systems.filter (fun x => x ≠ s) },
    [SysEvent.unconfigure s])

/-- `World::enableSystem` (ECS.h 647-655): if found in `disabledSystems`,
erase that occurrence and `push_back` onto `systems`; no hook is called. -/
def World.enableSystem (w : World) (s : SysId) : World × List SysEvent :=
  if s ∈ w.disabledSystems then
    ({ w with disabledSystems := w.disabledSystems.erase s,
              systems := w.systems ++ [s] }, [])
  else (w, [])

/-- `World::disableSystem` (ECS.h 657-665): if found in `systems`, erase
that occurrence and `push_back` onto `disabledSystems`; no hook is called. -/
def World.disableSystem (w : World) (s : SysId) : World × List SysEvent :=
  if s ∈ w.systems then
    ({ w with systems := w.systems.erase s,
              disabledSystems := w.disabledSystems ++ [s] }, [])
  else (w, [])

/-- `World::tick` (ECS.h 787-804): unless `ECS_TICK_NO_CLEANUP` is defined
(the `tickNoCleanup` flag), call `cleanup()` first; then call `tick` on
every system in the active list, in list order.  Returns
(updated world, hook invocations). -/
def World.tick (w : World) (tickNoCleanup : Bool) : World × List SysEvent :=
  let w1 := if tickNoCleanup then w else w.cleanup.1
  (w1, w1.systems.map SysEvent.tickSys)

/-! ## View/iteration engine

`Internal::EntityComponentIterator` / `Internal::EntityIterator` (ECS.h
1113-1197) both hold a position into the world's entity vector and advance
past positions failing a predicate; they differ only in the predicate
(the component check is absent from `EntityIterator`).  The machinery is
therefore embedded once, parameterized by the predicate an entity must pass
to be yielded: `operator++`'s loop condition
`get() == nullptr || !get()->has<Types...>() || (isPendingDestroy && !include)`
is the negation of that predicate (the null case is the past-the-end case,
`get? i = none`). -/

/-- The loop of `operator++` (ECS.h 1172-1185 resp. 1135-1147): starting at
position `i`, step forward while the position is in range and its entity
fails `P`.  Fuel-structured; `fuel ≥ length - i` makes it total. -/
def advanceFrom (ents : List Entity) (P : Entity → Bool) (fuel : Nat) (i : Nat) : Nat :=
  match fuel with
  | 0 => i
  | fuel + 1 =>
    match ents.get? i with
    | none => i
    | some e => if P e then i else advanceFrom ents P fuel (i + 1)

/-- `operator++` from position `i`: `++index`, then the skip loop. -/
def viewNext (ents : List Entity) (P : Entity → Bool) (i : Nat) : Nat :=
  advanceFrom ents P ents.length (i + 1)

/-- The view constructor (ECS.h 1187-1196 resp. 892-899): if `begin`'s
entity is null (past the end) or fails the predicate, advance once. -/
def viewBegin (ents : List Entity) (P : Entity → Bool) : Nat :=
  match ents.get? 0 with
  | none => viewNext ents P 0
  | some e => if P e then 0 else viewNext ents P 0

/-- The range-for loop over a view: while the iterator is not past the end,
yield `get()` and `operator++`.  Fuel-structured; positions strictly
increase, so `fuel ≥ length` makes it total from any start. -/
def viewYieldFrom (ents : List Entity) (P : Entity → Bool) (fuel : Nat) (i : Nat) :
    List Entity :=
  match fuel with
  | 0 => []
  | fuel + 1 =>
    match ents.get? i with
    | none => []
    | some e => e :: viewYieldFrom ents P fuel (viewNext ents P i)

/-- The full sequence of entities yielded by iterating a view. -/
def viewYield (ents : List Entity) (P : Entity → Bool) : List Entity :=
  viewYieldFrom ents P ents.length (viewBegin ents P)

/-- The predicate of `EntityComponentIterator<Types...>`: non-null,
`has<Types...>`, and not pending-destroy unless included. -/
def eachPred (req : List TypeIndex) (includePendingDestroy : Bool) (e : Entity) : Bool :=
  e.hasAll req && (includePendingDestroy || !e.bPendingDestroy)

/-- `World::each<Types...>` (ECS.h 756-761, iterated 1062-1069): the
sequence of entities the range-for over the view visits. -/
def World.eachYield (w : World) (req : List TypeIndex) (includePendingDestroy : Bool) :
    List Entity :=
  viewYield w.entities (eachPred req includePendingDestroy)

/-- `World::all` (ECS.h 1032-1045): the same machinery without the
component filter (`EntityIterator`). -/
def World.allYield (w : World) (includePendingDestroy : Bool) : List Entity :=
  viewYield w.entities (fun e => includePendingDestroy || !e.bPendingDestroy)

/-! ## Derived counting helpers and concrete scenario worlds -/

/-- Number of `OnEntityDestroyed` events for a given entity id in a log. -/
def countDestroyed (evs : List Event) (entId : Nat) : Nat :=
  evs.count (Event.onEntityDestroyed entId)

/-- Number of containers an entity holds for a given type index (the map
invariant of `std::unordered_map` keeps this at most 1). -/
def keyCount (e : Entity) (t : TypeIndex) : Nat :=
  e.components.countP (fun p => p.1 = t)

/-- `n` successive `World::subscribe<T>(s)` calls. -/
def subscribeN (w : World) (t : TypeIndex) (s : SubId) : Nat → World
  | 0 => w
  | n + 1 => (subscribeN w t s n).subscribe t s

/-- A world whose bucket for event type `0` holds the two subscribers `1`
and `2`. -/
def sharedBucketWorld : World :=
  { entities := [], systems := [], disabledSystems := [],
    subscribers := [(0, [1, 2])] }

/-- System `1` registered and then disabled. -/
def disabledSysWorld : World :=
  ((World.emptyWorld.registerSystem 1).1.disableSystem 1).1

/-- Systems `1` and `2` registered in that order, then system `1` disabled
and re-enabled: the active list becomes `[2, 1]`. -/
def reEnabledWorld : World :=
  ((((World.emptyWorld.registerSystem 1).1.registerSystem 2).1.disableSystem 1).1.enableSystem 1).1

/-- The `configure` invocations of the two registrations building
`reEnabledWorld`, in order: the registration order is `[1, 2]`. -/
def reEnabledRegLog : List SysEvent :=
  (World.emptyWorld.registerSystem 1).2 ++
    ((World.emptyWorld.registerSystem 1).1.registerSystem 2).2

/-- A world holding exactly one freshly created entity (id `1`). -/
def oneEntityWorld : World := (World.emptyWorld.create).1

/-! ## Helper lemmas: association lists -/

/-- Updating the values of the key-`t` entries commutes with looking the
key up. -/
theorem assoc_find?_map_same {β : Type} (t : Nat) (f : β → β) :
    ∀ l : List (Nat × β),
      ((l.map fun kv => if kv.1 = t then (kv.1, f kv.2) else kv).find?
          fun kv => kv.1 = t) =
        ((l.find? fun kv => kv.1 = t).map fun kv => (kv.1, f kv.2))
  | [] => rfl
  | kv :: rest => by
    by_cases h : kv.1 = t
    · simp [h, List.find?_cons_of_pos]
    · simp only [List.map_cons, if_neg h]
      rw [List.find?_cons_of_neg _ (by simpa using h),
        List.find?_cons_of_neg _ (by simpa using h)]
      exact assoc_find?_map_same t f rest

/-- After filtering the key out, lookup misses. -/
theorem assoc_find?_filter_ne {β : Type} (t : Nat) (l : List (Nat × β)) :
    ((l.filter fun kv => kv.1 ≠ t).find? fun kv => kv.1 = t) = none := by
  rw [List.find?_eq_none]
  intro x hx
  have := (List.mem_filter.mp hx).2
  simpa using this

/-- A failed lookup means the key occurs zero times. -/
theorem assoc_find?_none_countP {β : Type} (t : Nat) (l : List (Nat × β))
    (h : (l.find? fun kv => kv.1 = t) = none) :
    (l.countP fun kv => kv.1 = t) = 0 := by
  rw [List.countP_eq_zero]
  exact List.find?_eq_none.mp h

/-- Updating the values of the key-`t` entries keeps the key's multiplicity. -/
theorem assoc_countP_map_same {β : Type} (t : Nat) (f : β → β)
    (l : List (Nat × β)) :
    ((l.map fun kv => if kv.1 = t then (kv.1, f kv.2) else kv).countP
        fun kv => kv.1 = t) =
      (l.countP fun kv => kv.1 = t) := by
  rw [List.countP_map]
  apply List.countP_congr
  intro kv _
  by_cases h : kv.1 = t <;> simp [h]

/-! ## Helper lemmas: markPending -/

/-- `markPending` commutes with id lookup. -/
theorem find?_markPending (w : World) (i : Nat) :
    ((w.markPending i).entities.find? fun e => e.id = i) =
      ((w.entities.find? fun e => e.id = i).map
        fun e => { e with bPendingDestroy := true }) := by
  show ((w.entities.map fun x =>
      if x.id = i then { x with bPendingDestroy := true } else x).find?
        fun e => e.id = i) = _
  induction w.entities with
  | nil => rfl
  | cons x rest ih =>
    by_cases h : x.id = i
    · simp [h, List.find?_cons_of_pos]
    · simp only [List.map_cons, if_neg h]
      rw [List.find?_cons_of_neg _ (by simpa using h),
        List.find?_cons_of_neg _ (by simpa using h)]
      exact ih

/-- Every entity of a `markPending i` world whose id is `i` carries the
pending flag. -/
theorem mem_markPending_id (w : World) (i : Nat) (x : Entity)
    (hx : x ∈ (w.markPending i).entities) (hid : x.id = i) :
    x.bPendingDestroy = true := by
  simp only [World.markPending, List.mem_map] at hx
  obtain ⟨y, _, hy⟩ := hx
  by_cases h : y.id = i
  · rw [if_pos h] at hy
    rw [← hy]
  · rw [if_neg h] at hy
    rw [← hy] at hid
    exact absurd hid h

/-! ## Helper lemmas: the view iterator yields exactly the filtered list -/

theorem drop_cons_of_get? {α : Type} (l : List α) (i : Nat) (e : α)
    (h : l.get? i = some e) : l.drop i = e :: l.drop (i + 1) := by
  have hi : i < l.length := by
    by_contra hc
    push_neg at hc
    rw [List.get?_eq_none.mpr hc] at h
    cases h
  rw [List.drop_eq_getElem_cons hi]
  congr 1
  have h2 : l[i]? = some l[i] := List.getElem?_eq_getElem hi
  rw [← List.get?_eq_getElem?, h] at h2
  exact (Option.some_injective _ h2).symm

theorem advanceFrom_zero (ents : List Entity) (P : Entity → Bool) (i : Nat) :
    advanceFrom ents P 0 i = i := rfl

theorem advanceFrom_succ_none (ents : List Entity) (P : Entity → Bool)
    (fuel i : Nat) (h : ents.get? i = none) :
    advanceFrom ents P (fuel + 1) i = i := by
  conv_lhs => unfold advanceFrom
  simp only [h]

theorem advanceFrom_succ_pos (ents : List Entity) (P : Entity → Bool)
    (fuel i : Nat) (e : Entity) (h : ents.get? i = some e) (hP : P e = true) :
    advanceFrom ents P (fuel + 1) i = i := by
  conv_lhs => unfold advanceFrom
  simp only [h, hP, if_true]

theorem advanceFrom_succ_neg (ents : List Entity) (P : Entity → Bool)
    (fuel i : Nat) (e : Entity) (h : ents.get? i = some e) (hP : P e = false) :
    advanceFrom ents P (fuel + 1) i = advanceFrom ents P fuel (i + 1) := by
  conv_lhs => unfold advanceFrom
  simp only [h, hP]
  rfl

theorem viewYieldFrom_zero (ents : List Entity) (P : Entity → Bool) (i : Nat) :
    viewYieldFrom ents P 0 i = [] := rfl

theorem viewYieldFrom_succ_none (ents : List Entity) (P : Entity → Bool)
    (fuel i : Nat) (h : ents.get? i = none) :
    viewYieldFrom ents P (fuel + 1) i = [] := by
  conv_lhs => unfold viewYieldFrom
  simp only [h]

theorem viewYieldFrom_succ_some (ents : List Entity) (P : Entity → Bool)
    (fuel i : Nat) (e : Entity) (h : ents.get? i = some e) :
    viewYieldFrom ents P (fuel + 1) i =
      e :: viewYieldFrom ents P fuel (viewNext ents P i) := by
  conv_lhs => unfold viewYieldFrom
  simp only [h]

theorem advanceFrom_ge (ents : List Entity) (P : Entity → Bool) :
    ∀ (fuel i : Nat), i ≤ advanceFrom ents P fuel i := by
  intro fuel
  induction fuel with
  | zero => intro i; exact Nat.le_refl _
  | succ fuel ih =>
    intro i
    cases h : ents.get? i with
    | none => rw [advanceFrom_succ_none ents P fuel i h]
    | some e =>
      cases hP : P e with
      | true => rw [advanceFrom_succ_pos ents P fuel i e h hP]
      | false =>
        rw [advanceFrom_succ_neg ents P fuel i e h hP]
        exact Nat.le_trans (Nat.le_succ i) (ih (i + 1))

theorem advanceFrom_stop (ents : List Entity) (P : Entity → Bool) :
    ∀ (fuel i : Nat), ents.length ≤ i + fuel →
      ∀ e, ents.get? (advanceFrom ents P fuel i) = some e → P e = true := by
  intro fuel
  induction fuel with
  | zero =>
    intro i hlen e he
    rw [advanceFrom_zero, List.get?_eq_none.mpr (by omega)] at he
    cases he
  | succ fuel ih =>
    intro i hlen e he
    cases h : ents.get? i with
    | none =>
      rw [advanceFrom_succ_none ents P fuel i h, h] at he
      cases he
    | some e0 =>
      cases hP : P e0 with
      | true =>
        rw [advanceFrom_succ_pos ents P fuel i e0 h hP, h] at he
        cases he
        exact hP
      | false =>
        rw [advanceFrom_succ_neg ents P fuel i e0 h hP] at he
        exact ih (i + 1) (by omega) e he

theorem advanceFrom_filter (ents : List Entity) (P : Entity → Bool) :
    ∀ (fuel i : Nat),
      (ents.drop (advanceFrom ents P fuel i)).filter P = (ents.drop i).filter P := by
  intro fuel
  induction fuel with
  | zero => intro i; rfl
  | succ fuel ih =>
    intro i
    cases h : ents.get? i with
    | none => rw [advanceFrom_succ_none ents P fuel i h]
    | some e =>
      cases hP : P e with
      | true => rw [advanceFrom_succ_pos ents P fuel i e h hP]
      | false =>
        rw [advanceFrom_succ_neg ents P fuel i e h hP, ih (i + 1),
          drop_cons_of_get? ents i e h,
          List.filter_cons_of_neg (by simp [hP])]

theorem viewYieldFrom_eq (ents : List Entity) (P : Entity → Bool) :
    ∀ (fuel i : Nat), ents.length ≤ i + fuel →
      (∀ e, ents.get? i = some e → P e = true) →
      viewYieldFrom ents P fuel i = (ents.drop i).filter P := by
  intro fuel
  induction fuel with
  | zero =>
    intro i hlen _
    rw [List.drop_eq_nil_of_le (by omega)]
    rfl
  | succ fuel ih =>
    intro i hlen hstart
    cases h : ents.get? i with
    | none =>
      rw [viewYieldFrom_succ_none ents P fuel i h,
        List.drop_eq_nil_of_le (List.get?_eq_none.mp h)]
      rfl
    | some e =>
      have hP : P e = true := hstart e h
      have hge : i + 1 ≤ viewNext ents P i := advanceFrom_ge ents P ents.length (i + 1)
      rw [viewYieldFrom_succ_some ents P fuel i e h,
        ih (viewNext ents P i) (by omega)
          (advanceFrom_stop ents P ents.length (i + 1) (by omega)),
        drop_cons_of_get? ents i e h, List.filter_cons_of_pos hP]
      congr 1
      exact advanceFrom_filter ents P ents.length (i + 1)

theorem viewYield_eq_filter (ents : List Entity) (P : Entity → Bool) :
    viewYield ents P = ents.filter P := by
  have hbegin :
      viewYield ents P = viewYieldFrom ents P ents.length (viewBegin ents P) := rfl
  cases h0 : ents.get? 0 with
  | none =>
    have : ents = [] := List.eq_nil_of_length_eq_zero (by
      have := List.get?_eq_none.mp h0
      omega)
    subst this
    rfl
  | some e =>
    cases hP : P e with
    | true =>
      have hb : viewBegin ents P = 0 := by
        unfold viewBegin
        rw [h0]
        simp [hP]
      rw [hbegin, hb,
        viewYieldFrom_eq ents P ents.length 0 (by omega)
          (fun e' he' => by rw [h0] at he'; cases he'; exact hP),
        List.drop_zero]
    | false =>
      have hb : viewBegin ents P = viewNext ents P 0 := by
        unfold viewBegin
        rw [h0]
        simp [hP]
      rw [hbegin, hb,
        viewYieldFrom_eq ents P ents.length (viewNext ents P 0)
          (by have := advanceFrom_ge ents P ents.length 1; omega)
          (advanceFrom_stop ents P ents.length 1 (by omega))]
      show (ents.drop (advanceFrom ents P ents.length 1)).filter P = _
      rw [advanceFrom_filter ents P ents.length 1]
      have hdrop : ents.drop 0 = e :: ents.drop 1 := drop_cons_of_get? ents 0 e h0
      rw [List.drop_zero] at hdrop
      conv_rhs => rw [hdrop]
      rw [List.filter_cons_of_neg (by simp [hP])]

/-! ## Claim theorems -/

/-- C1: the claim states that after `unsubscribeAll(s)` no subscriber bucket
contains a reference to `s`, so a subsequent emit never invokes `s`'s
receive hook.  The code violates this: `for (auto kv : subscribers)` binds a
by-value copy of each map entry, so the erase-remove mutates only the copy
(ECS.h 711-713).  On a world whose bucket for event type `0` holds
subscribers `1` and `2`, `unsubscribeAll(1)` leaves the bucket unchanged and
a subsequent `emit` still invokes subscriber `1`'s receive hook. -/
theorem C1_unsubscribeAll_misses_shared_bucket :
    (sharedBucketWorld.unsubscribeAll 1).subscribers = [(0, [1, 2])] ∧
    1 ∈ (sharedBucketWorld.unsubscribeAll 1).emitReceivers 0 := by decide

/-- C2 counterexample: register system `1`, disable it, then unregister it;
contrary to the claim, `1` is still present in the disabled list
(`unregisterSystem` erases only from `systems`, ECS.h 643). -/
theorem C2_cex_unregister_leaves_disabled :
    1 ∈ ((disabledSysWorld.unregisterSystem 1).1).disabledSystems := by decide

/-- C2 (amended): `unregisterSystem(s)` removes `s` from the active list
only, leaves the disabled list unchanged, and calls `unconfigure`; after
`disableSystem(s)` followed by `unregisterSystem(s)`, `s` is absent from the
active list but still present in the disabled list. -/
theorem C2_unregister_removes_active_only :
    ∀ (w : World) (s : SysId),
      ((w.unregisterSystem s).1.systems = w.systems.filter (fun x => x ≠ s)) ∧
      ((w.unregisterSystem s).1.disabledSystems = w.disabledSystems) ∧
      ((w.unregisterSystem s).2 = [SysEvent.unconfigure s]) ∧
      (s ∈ w.systems →
        s ∉ ((w.disableSystem s).1.unregisterSystem s).1.systems ∧
        s ∈ ((w.disableSystem s).1.unregisterSystem s).1.disabledSystems) := by
  intro w s
  refine ⟨rfl, rfl, rfl, fun hs => ⟨?_, ?_⟩⟩
  · intro hmem
    have := (List.mem_filter.mp hmem).2
    simp at this
  · simp only [World.disableSystem, if_pos hs, World.unregisterSystem]
    exact List.mem_append_right _ (List.mem_singleton.mpr rfl)

/-- C2 witness: the amended theorem applied to a world where system `1` is
registered and then disabled. -/
theorem C2_unregister_removes_active_only_witness :
    1 ∉ (((World.emptyWorld.registerSystem 1).1.disableSystem 1).1.unregisterSystem 1).1.systems ∧
    1 ∈ (((World.emptyWorld.registerSystem 1).1.disableSystem 1).1.unregisterSystem 1).1.disabledSystems :=
  (C2_unregister_removes_active_only (World.emptyWorld.registerSystem 1).1 1).2.2.2
    (by decide)

/-- C3 counterexample: after one `create()` the id counter is `1`; `reset()`
sets it back to `0` (ECS.h 1029), so `lastEntityId` does decrease across
`reset()`, contrary to the claim. -/
theorem C3_cex_reset_decreases_lastEntityId :
    (oneEntityWorld.reset).1.lastEntityId < oneEntityWorld.lastEntityId := by decide

/-- C3 (amended): `lastEntityId` never decreases across `create`, `destroy`
and `cleanup` (`create` increments it, the others leave it unchanged), but
`reset()` sets it back to `0` and subsequent creates renumber from `1`. -/
theorem C3_lastEntityId_monotone_except_reset :
    ∀ (w : World) (ref : Option Nat) (imm : Bool),
      w.lastEntityId ≤ (w.create).1.lastEntityId ∧
      ((w.destroy ref imm).1.lastEntityId = w.lastEntityId) ∧
      ((w.cleanup).1.lastEntityId = w.lastEntityId) ∧
      ((w.reset).1.lastEntityId = 0) := by
  intro w ref imm
  refine ⟨Nat.le_succ _, ?_, rfl, rfl⟩
  cases ref with
  | none => rfl
  | some i =>
    cases hf : w.entities.find? (fun e => e.id = i) with
    | none => simp [World.destroy, hf]
    | some e =>
      by_cases hp : e.bPendingDestroy = true <;> cases imm <;>
        simp [World.destroy, hf, hp, World.eraseEntity, World.markPending]

/-- C4 counterexample: register systems `1` then `2` (registration order
`[1, 2]` per the `configure` log), disable `1`, re-enable `1`; both are
active and none disabled, yet `tick` invokes `2` before `1` — not
registration order (`enableSystem` pushes the system to the back of the
active list, ECS.h 653). -/
theorem C4_cex_tick_order_after_reenable :
    reEnabledRegLog = [SysEvent.configure 1, SysEvent.configure 2] ∧
    1 ∈ reEnabledWorld.systems ∧ 2 ∈ reEnabledWorld.systems ∧
    reEnabledWorld.disabledSystems = [] ∧
    (reEnabledWorld.tick false).2 = [SysEvent.tickSys 2, SysEvent.tickSys 1] ∧
    (reEnabledWorld.tick false).2 ≠ [SysEvent.tickSys 1, SysEvent.tickSys 2] := by
  decide

/-- C4 (amended): `tick` first calls `cleanup()` unless disabled by
configuration, then invokes the tick hook exactly once on every system in
the active list, in active-list order (registration order except that a
re-enabled system moves to the end of the list); no system outside the
active list is ticked; disabling a system prevents its tick on a subsequent
`tick`, and re-enabling resumes invocation without `configure` being called
again. -/
theorem C4_tick_active_systems :
    ∀ (w : World) (s : SysId) (noCleanup : Bool),
      ((w.tick false).1 = (w.cleanup).1 ∧ (w.tick true).1 = w) ∧
      ((w.tick noCleanup).2 = w.systems.map SysEvent.tickSys) ∧
      ((w.tick noCleanup).2.count (SysEvent.tickSys s) = w.systems.count s) ∧
      (s ∉ w.systems → SysEvent.tickSys s ∉ (w.tick noCleanup).2) ∧
      (w.systems.count s ≤ 1 →
        SysEvent.tickSys s ∉ ((w.disableSystem s).1.tick noCleanup).2) ∧
      ((w.enableSystem s).2 = []) ∧
      (s ∈ w.disabledSystems → s ∉ w.systems →
        ((w.enableSystem s).1.tick noCleanup).2.count (SysEvent.tickSys s) = 1) := by
  intro w s noCleanup
  have hinj : Function.Injective SysEvent.tickSys := by
    intro a b h
    cases h
    rfl
  have hevents : ∀ (w2 : World),
      (w2.tick noCleanup).2 = w2.systems.map SysEvent.tickSys := by
    intro w2
    cases noCleanup <;> rfl
  have hcount : ∀ (w2 : World),
      (w2.tick noCleanup).2.count (SysEvent.tickSys s) = w2.systems.count s := by
    intro w2
    rw [hevents w2, List.count_map_of_injective _ _ hinj]
  have hnotmem : ∀ (w2 : World), w2.systems.count s = 0 →
      SysEvent.tickSys s ∉ (w2.tick noCleanup).2 := by
    intro w2 h0 hmem
    have := List.count_pos_iff.mpr hmem
    rw [hcount w2] at this
    omega
  refine ⟨⟨rfl, rfl⟩, hevents w, hcount w, ?_, ?_, ?_, ?_⟩
  · intro hs
    exact hnotmem w (List.count_eq_zero.mpr hs)
  · intro hle
    by_cases hs : s ∈ w.systems
    · have hd : (w.disableSystem s).1.systems = w.systems.erase s := by
        simp [World.disableSystem, hs]
      have hpos : 0 < w.systems.count s := List.count_pos_iff.mpr hs
      have hc := List.count_erase_self s w.systems
      apply hnotmem
      rw [hd]
      omega
    · have hd : (w.disableSystem s).1 = w := by
        simp [World.disableSystem, hs]
      rw [hd]
      exact hnotmem w (List.count_eq_zero.mpr hs)
  · by_cases hm : s ∈ w.disabledSystems <;> simp [World.enableSystem, hm]
  · intro hd hs
    have he : (w.enableSystem s).1.systems = w.systems ++ [s] := by
      simp [World.enableSystem, hd]
    rw [hcount, he, List.count_append, List.count_eq_zero.mpr hs,
      List.count_singleton]
    simp

/-- C4 witness: the amended theorem applied to a world where system `1` is
registered and disabled. -/
theorem C4_tick_active_systems_witness :
    SysEvent.tickSys 1 ∉ (disabledSysWorld.tick false).2 ∧
    SysEvent.tickSys 1 ∉ ((disabledSysWorld.disableSystem 1).1.tick false).2 ∧
    ((disabledSysWorld.enableSystem 1).1.tick false).2.count (SysEvent.tickSys 1) = 1 :=
  ⟨(C4_tick_active_systems disabledSysWorld 1 false).2.2.2.1 (by decide),
   (C4_tick_active_systems disabledSysWorld 1 false).2.2.2.2.1 (by decide),
   (C4_tick_active_systems disabledSysWorld 1 false).2.2.2.2.2.2 (by decide) (by decide)⟩

/-- Entity deallocation emits only `OnComponentRemoved` events, never an
`OnEntityDestroyed`. -/
theorem countDestroyed_dealloc (e : Entity) (i : Nat) :
    countDestroyed (entityDeallocEvents e) i = 0 := by
  rw [countDestroyed, List.count_eq_zero]
  intro hmem
  rw [entityDeallocEvents, List.mem_map] at hmem
  obtain ⟨p, _, hp⟩ := hmem
  cases hp

/-- `cleanup` returns `true` exactly when some entity was pending destroy. -/
theorem cleanup_ret_iff (w : World) :
    (w.cleanup).2.1 = true ↔ ∃ x ∈ w.entities, x.bPendingDestroy = true := by
  show decide ((w.entities.filter (fun e => e.bPendingDestroy)).length > 0) = true ↔ _
  rw [decide_eq_true_eq, gt_iff_lt, ← List.countP_eq_length_filter,
    List.countP_pos_iff]

/-- C5: `destroy(nullptr, b)` is a no-op; on an already-pending entity,
non-immediate destroy is a no-op while immediate destroy physically removes
it without a second `OnEntityDestroyed`; on a not-yet-pending entity,
destroy emits `OnEntityDestroyed` exactly once, physically removing it iff
immediate.  `destroy(e); destroy(e)` emits exactly one `OnEntityDestroyed`
and leaves the entity marked pending; a subsequent `cleanup()` removes it
exactly once and returns true, and in general `cleanup` returns true iff
some pending entity was removed. -/
theorem C5_destroy_idempotent_cleanup_once :
    ∀ (w : World) (b : Bool) (entId : Nat) (e : Entity),
      (w.destroy none b = (w, [])) ∧
      ((w.cleanup).2.1 = true ↔ ∃ x ∈ w.entities, x.bPendingDestroy = true) ∧
      (w.entities.find? (fun x => x.id = entId) = some e →
        (e.bPendingDestroy = true →
          w.destroy (some entId) false = (w, []) ∧
          countDestroyed (w.destroy (some entId) true).2 entId = 0 ∧
          (∀ x ∈ (w.destroy (some entId) true).1.entities, x.id ≠ entId)) ∧
        (e.bPendingDestroy = false →
          countDestroyed (w.destroy (some entId) b).2 entId = 1 ∧
          (b = true → ∀ x ∈ (w.destroy (some entId) b).1.entities, x.id ≠ entId) ∧
          ((w.destroy (some entId) false).1.entities.find? (fun x => x.id = entId)
              = some { e with bPendingDestroy := true }) ∧
          countDestroyed
            ((w.destroy (some entId) false).1.destroy (some entId) false).2 entId = 0 ∧
          (((w.destroy (some entId) false).1.destroy (some entId) false).1
              = (w.destroy (some entId) false).1) ∧
          (((w.destroy (some entId) false).1.cleanup).2.1 = true) ∧
          (w.entities.countP (fun x => x.id = entId) = 1 →
            ((w.destroy (some entId) false).1.cleanup).1.entities.countP
                (fun x => x.id = entId) = 0))) := by
  intro w b entId e
  refine ⟨rfl, cleanup_ret_iff w, fun hf => ⟨fun hp => ⟨?_, ?_, ?_⟩, fun hp => ?_⟩⟩
  · simp [World.destroy, hf, hp]
  · simp [World.destroy, hf, hp, countDestroyed_dealloc]
  · intro x hx
    simp only [World.destroy, hf, hp, if_true, World.eraseEntity] at hx
    have := (List.mem_filter.mp hx).2
    simpa using this
  · have hfind1 : (w.markPending entId).entities.find? (fun x => x.id = entId)
        = some { e with bPendingDestroy := true } := by
      rw [find?_markPending, hf]
      rfl
    have hd1 : w.destroy (some entId) false = (w.markPending entId,
        [Event.onEntityDestroyed entId]) := by
      simp [World.destroy, hf, hp]
    have hd2 : (w.markPending entId).destroy (some entId) false
        = (w.markPending entId, []) := by
      simp [World.destroy, hfind1]
    refine ⟨?_, ?_, ?_, ?_, ?_, ?_, ?_⟩
    · cases b with
      | false =>
        rw [hd1]
        simp [countDestroyed]
      | true =>
        have : w.destroy (some entId) true
            = ((w.markPending entId).eraseEntity entId,
              Event.onEntityDestroyed entId ::
                entityDeallocEvents { e with bPendingDestroy := true }) := by
          simp [World.destroy, hf, hp]
        rw [this]
        show countDestroyed (_ :: _) entId = 1
        rw [countDestroyed, List.count_cons]
        have h0 := countDestroyed_dealloc { e with bPendingDestroy := true } entId
        rw [countDestroyed] at h0
        simp [h0]
    · intro hb
      subst hb
      intro x hx
      simp only [World.destroy, hf, hp, if_true, if_false, World.eraseEntity] at hx
      have := (List.mem_filter.mp hx).2
      simpa using this
    · rw [hd1]
      exact hfind1
    · rw [hd1]
      show countDestroyed ((w.markPending entId).destroy (some entId) false).2 entId = 0
      rw [hd2]
      rfl
    · rw [hd1]
      show ((w.markPending entId).destroy (some entId) false).1 = _
      rw [hd2]
    · rw [hd1]
      show ((w.markPending entId).cleanup).2.1 = true
      rw [cleanup_ret_iff]
      exact ⟨{ e with bPendingDestroy := true },
        List.mem_of_find?_eq_some hfind1, rfl⟩
    · intro _
      rw [hd1]
      show ((w.markPending entId).cleanup).1.entities.countP _ = 0
      rw [List.countP_eq_zero]
      intro x hx
      show ¬ decide (x.id = entId) = true
      simp only [decide_eq_true_eq]
      intro hid
      have hxmem : x ∈ (w.markPending entId).entities ∧ (!x.bPendingDestroy) = true :=
        List.mem_filter.mp hx
      have := mem_markPending_id w entId x hxmem.1 hid
      rw [this] at hxmem
      simp at hxmem

/-- C5 witness: the theorem applied to a world holding one freshly created
entity (id 1), destroyed twice non-immediately, then cleaned up. -/
theorem C5_destroy_idempotent_cleanup_once_witness :
    countDestroyed (oneEntityWorld.destroy (some 1) false).2 1 = 1 ∧
    countDestroyed
      ((oneEntityWorld.destroy (some 1) false).1.destroy (some 1) false).2 1 = 0 ∧
    ((oneEntityWorld.destroy (some 1) false).1.cleanup).2.1 = true ∧
    ((oneEntityWorld.destroy (some 1) false).1.cleanup).1.entities.countP
      (fun x => x.id = 1) = 0 := by
  have h := (C5_destroy_idempotent_cleanup_once oneEntityWorld false 1
      { id := 1, components := [], bPendingDestroy := false }).2.2 (by decide)
  have h2 := h.2 (by decide)
  exact ⟨h2.1, h2.2.2.2.1, h2.2.2.2.2.2.1, h2.2.2.2.2.2.2 (by decide)⟩

theorem assign_handle (e : Entity) (t : TypeIndex) (v : Val) :
    (e.assign t v).2.1 = some v := by
  cases hf : e.components.find? (fun p => p.1 = t) <;> simp [Entity.assign, hf]

theorem assign_id (e : Entity) (t : TypeIndex) (v : Val) :
    (e.assign t v).1.id = e.id := by
  cases hf : e.components.find? (fun p => p.1 = t) <;> simp [Entity.assign, hf]

theorem assign_events (e : Entity) (t : TypeIndex) (v : Val) :
    (e.assign t v).2.2 = [Event.onComponentAssigned t e.id] := by
  cases hf : e.components.find? (fun p => p.1 = t) <;> simp [Entity.assign, hf]

theorem assign_get (e : Entity) (t : TypeIndex) (v : Val) :
    (e.assign t v).1.get t = some v := by
  cases hf : e.components.find? (fun p => p.1 = t) with
  | none =>
    simp only [Entity.assign, hf, Entity.get, List.find?_append, hf]
    simp
  | some kv =>
    simp only [Entity.assign, hf, Entity.get]
    rw [assoc_find?_map_same t (fun _ => v) e.components, hf]
    rfl

theorem has_of_get_some (e : Entity) (t : TypeIndex) (v : Val)
    (h : e.get t = some v) : e.has t = true := by
  rw [Entity.has]
  rw [Entity.get] at h
  cases hf : e.components.find? (fun p => p.1 = t) with
  | none => rw [hf] at h; cases h
  | some kv => rfl

theorem assign_keyCount_has (e : Entity) (t : TypeIndex) (v : Val)
    (h : e.has t = true) : keyCount (e.assign t v).1 t = keyCount e t := by
  rw [Entity.has, Option.isSome_iff_exists] at h
  obtain ⟨kv, hf⟩ := h
  simp only [Entity.assign, hf, keyCount]
  exact assoc_countP_map_same t (fun _ => v) e.components

theorem assign_keyCount_not_has (e : Entity) (t : TypeIndex) (v : Val)
    (h : e.has t = false) : keyCount (e.assign t v).1 t = 1 := by
  have hf : e.components.find? (fun p => p.1 = t) = none := by
    rw [Entity.has] at h
    cases hx : e.components.find? (fun p => p.1 = t) with
    | none => rfl
    | some kv => rw [hx] at h; cases h
  simp only [Entity.assign, hf, keyCount, List.countP_append]
  rw [assoc_find?_none_countP t e.components hf]
  simp

theorem keyCount_pos_of_has (e : Entity) (t : TypeIndex)
    (h : e.has t = true) : 0 < keyCount e t := by
  rw [Entity.has, Option.isSome_iff_exists] at h
  obtain ⟨kv, hf⟩ := h
  rw [keyCount, List.countP_pos_iff]
  have h1 := List.find?_some hf
  have h2 := List.mem_of_find?_eq_some hf
  exact ⟨kv, h2, h1⟩

/-- C6: `assign<T>` replaces the value in place when a container already
exists (key multiplicity unchanged) and allocates and inserts a fresh
container otherwise; in both cases it returns a valid handle to the live
slot holding the new value and emits exactly one `OnComponentAssigned<T>`.
Hence `assign(a); assign(b)` leaves exactly one `T` attribute, holding
`b`, and fires the event twice. -/
theorem C6_assign_replaces_not_duplicates :
    ∀ (e : Entity) (t : TypeIndex) (a b v : Val),
      ((e.assign t v).2.1 = some v) ∧
      ((e.assign t v).1.get t = some v) ∧
      ((e.assign t v).2.2 = [Event.onComponentAssigned t e.id]) ∧
      (e.has t = true → keyCount (e.assign t v).1 t = keyCount e t) ∧
      (e.has t = false → keyCount (e.assign t v).1 t = 1) ∧
      (keyCount e t ≤ 1 →
        keyCount ((e.assign t a).1.assign t b).1 t = 1 ∧
        ((e.assign t a).1.assign t b).1.get t = some b ∧
        ((e.assign t a).2.2 ++ ((e.assign t a).1.assign t b).2.2
          = [Event.onComponentAssigned t e.id, Event.onComponentAssigned t e.id])) := by
  intro e t a b v
  refine ⟨assign_handle e t v, assign_get e t v, assign_events e t v,
    assign_keyCount_has e t v, assign_keyCount_not_has e t v, fun hle => ?_⟩
  have hhas1 : (e.assign t a).1.has t = true :=
    has_of_get_some _ t a (assign_get e t a)
  have hkey1 : keyCount (e.assign t a).1 t = 1 := by
    by_cases hhas : e.has t = true
    · rw [assign_keyCount_has e t a hhas]
      have := keyCount_pos_of_has e t hhas
      omega
    · exact assign_keyCount_not_has e t a (by
        cases hx : e.has t with
        | false => rfl
        | true => exact absurd hx hhas)
  refine ⟨?_, assign_get _ t b, ?_⟩
  · rw [assign_keyCount_has _ t b hhas1, hkey1]
  · rw [assign_events, assign_events, assign_id]
    rfl

/-- C6 witness: the theorem applied to a component-less entity (insert
branch) and to an entity already holding a container (replace branch). -/
theorem C6_assign_replaces_not_duplicates_witness :
    keyCount (Entity.assign ⟨1, [], false⟩ 0 5).1 0 = 1 ∧
    keyCount (Entity.assign ⟨1, [(0, 9)], false⟩ 0 5).1 0
      = keyCount ⟨1, [(0, 9)], false⟩ 0 ∧
    keyCount ((Entity.assign ⟨1, [], false⟩ 0 3).1.assign 0 7).1 0 = 1 ∧
    ((Entity.assign ⟨1, [], false⟩ 0 3).1.assign 0 7).1.get 0 = some 7 :=
  ⟨(C6_assign_replaces_not_duplicates ⟨1, [], false⟩ 0 3 7 5).2.2.2.2.1 (by decide),
   (C6_assign_replaces_not_duplicates ⟨1, [(0, 9)], false⟩ 0 3 7 5).2.2.2.1 (by decide),
   ((C6_assign_replaces_not_duplicates ⟨1, [], false⟩ 0 3 7 5).2.2.2.2.2 (by decide)).1,
   ((C6_assign_replaces_not_duplicates ⟨1, [], false⟩ 0 3 7 5).2.2.2.2.2 (by decide)).2.1⟩

/-- Erasing the first match from a list holding at most one match leaves a
list with no match. -/
theorem find?_eraseP_of_countP_le_one {α : Type} (p : α → Bool) :
    ∀ l : List α, l.countP p ≤ 1 → (l.eraseP p).find? p = none := by
  intro l
  induction l with
  | nil => intro _; rfl
  | cons a l ih =>
    intro hle
    by_cases hp : p a = true
    · rw [List.eraseP_cons_of_pos hp, List.find?_eq_none]
      rw [List.countP_cons_of_pos _ _ hp] at hle
      have h0 : l.countP p = 0 := by omega
      exact List.countP_eq_zero.mp h0
    · rw [List.eraseP_cons_of_neg hp, List.find?_cons_of_neg _ hp]
      rw [List.countP_cons_of_neg _ _ hp] at hle
      exact ih hle

/-- C7: if the entity has a T attribute, remove fires exactly one
removal event, delivered strictly before the container deallocation in the
action trace (storage still valid at delivery), erases the map entry, and
returns true; if absent, remove returns false, performs no action and
leaves the entity unchanged. -/
theorem C7_remove_fires_before_free :
    ∀ (e : Entity) (t : TypeIndex),
      (e.has t = true →
        (e.remove t).2.1 = true ∧
        (e.remove t).2.2 = [RemAction.emitRemoved t e.id, RemAction.deallocate t] ∧
        (e.remove t).2.2.count (RemAction.emitRemoved t e.id) = 1 ∧
        ((e.remove t).2.2.indexOf (RemAction.emitRemoved t e.id) <
          (e.remove t).2.2.indexOf (RemAction.deallocate t)) ∧
        (keyCount e t ≤ 1 → (e.remove t).1.has t = false)) ∧
      (e.has t = false → e.remove t = (e, false, [])) := by
  intro e t
  constructor
  · intro hhas
    rw [Entity.has, Option.isSome_iff_exists] at hhas
    obtain ⟨kv, hf⟩ := hhas
    refine ⟨by simp [Entity.remove, hf], by simp [Entity.remove, hf], ?_, ?_, ?_⟩
    · simp [Entity.remove, hf, List.count_cons]
    · simp only [Entity.remove, hf]
      rw [List.indexOf_cons_self]
      rw [List.indexOf_cons_ne _ (by simp)]
      exact Nat.succ_pos _
    · intro hle
      simp only [Entity.remove, hf, Entity.has]
      rw [find?_eraseP_of_countP_le_one _ _ hle]
      rfl
  · intro hhas
    have hf : e.components.find? (fun p => p.1 = t) = none := by
      rw [Entity.has] at hhas
      cases hx : e.components.find? (fun p => p.1 = t) with
      | none => rfl
      | some kv => rw [hx] at hhas; cases hhas
    simp [Entity.remove, hf]

/-- C7 witness: the theorem applied to an entity holding one component of
type 0 (present branch) and to a component-less entity (absent branch). -/
theorem C7_remove_fires_before_free_witness :
    (Entity.remove ⟨1, [(0, 9)], false⟩ 0).2.1 = true ∧
    ((Entity.remove ⟨1, [(0, 9)], false⟩ 0).2.2.indexOf (RemAction.emitRemoved 0 1) <
      (Entity.remove ⟨1, [(0, 9)], false⟩ 0).2.2.indexOf (RemAction.deallocate 0)) ∧
    (Entity.remove ⟨1, [(0, 9)], false⟩ 0).1.has 0 = false ∧
    Entity.remove ⟨1, [], false⟩ 0 = (⟨1, [], false⟩, false, []) :=
  ⟨((C7_remove_fires_before_free ⟨1, [(0, 9)], false⟩ 0).1 (by decide)).1,
   ((C7_remove_fires_before_free ⟨1, [(0, 9)], false⟩ 0).1 (by decide)).2.2.2.1,
   ((C7_remove_fires_before_free ⟨1, [(0, 9)], false⟩ 0).1 (by decide)).2.2.2.2 (by decide),
   (C7_remove_fires_before_free ⟨1, [], false⟩ 0).2 (by decide)⟩

/-- C8: the sequence produced by each/all visits the entity collection in
position order and yields exactly the entities passing the predicate
(non-null, all required components, and not pending-destroy unless
included), i.e. it equals the position-ordered filter of the entity list;
consequently a pending-destroy entity is excluded from each/all with the
default flag, until cleanup removes it. -/
theorem C8_each_yields_exactly_filter :
    ∀ (w : World) (req : List TypeIndex) (inc : Bool),
      (w.eachYield req inc = w.entities.filter (eachPred req inc)) ∧
      (w.allYield inc = w.entities.filter (fun e => inc || !e.bPendingDestroy)) ∧
      (∀ e ∈ w.entities, e.bPendingDestroy = true →
        e ∉ w.eachYield req false ∧ e ∉ w.allYield false ∧
        e ∉ (w.cleanup).1.entities) := by
  intro w req inc
  refine ⟨viewYield_eq_filter _ _, viewYield_eq_filter _ _, ?_⟩
  intro e _ hpend
  refine ⟨?_, ?_, ?_⟩
  · rw [World.eachYield, viewYield_eq_filter]
    intro hin
    have := (List.mem_filter.mp hin).2
    rw [eachPred, hpend] at this
    simp at this
  · rw [World.allYield, viewYield_eq_filter]
    intro hin
    have := (List.mem_filter.mp hin).2
    rw [hpend] at this
    simp at this
  · intro hin
    have := (List.mem_filter.mp hin).2
    rw [hpend] at this
    simp at this

/-- C8 witness: the theorem applied to a three-entity world (component-10
only; components 10 and 11; component-11 only but pending destroy). -/
theorem C8_each_yields_exactly_filter_witness :
    (World.mk [⟨1, [(10, 5)], false⟩, ⟨2, [(10, 1), (11, 2)], false⟩,
        ⟨3, [(11, 7)], true⟩] [] [] [] 3).eachYield [10, 11] false
      = (World.mk [⟨1, [(10, 5)], false⟩, ⟨2, [(10, 1), (11, 2)], false⟩,
        ⟨3, [(11, 7)], true⟩] [] [] [] 3).entities.filter (eachPred [10, 11] false) ∧
    (⟨3, [(11, 7)], true⟩ : Entity) ∉
      (World.mk [⟨1, [(10, 5)], false⟩, ⟨2, [(10, 1), (11, 2)], false⟩,
        ⟨3, [(11, 7)], true⟩] [] [] [] 3).eachYield [11] false ∧
    (⟨3, [(11, 7)], true⟩ : Entity) ∉
      (World.mk [⟨1, [(10, 5)], false⟩, ⟨2, [(10, 1), (11, 2)], false⟩,
        ⟨3, [(11, 7)], true⟩] [] [] [] 3).allYield false :=
  ⟨(C8_each_yields_exactly_filter (World.mk [⟨1, [(10, 5)], false⟩,
      ⟨2, [(10, 1), (11, 2)], false⟩, ⟨3, [(11, 7)], true⟩] [] [] [] 3)
      [10, 11] false).1,
   ((C8_each_yields_exactly_filter (World.mk [⟨1, [(10, 5)], false⟩,
      ⟨2, [(10, 1), (11, 2)], false⟩, ⟨3, [(11, 7)], true⟩] [] [] [] 3)
      [11] false).2.2 ⟨3, [(11, 7)], true⟩ (by decide) (by decide)).1,
   ((C8_each_yields_exactly_filter (World.mk [⟨1, [(10, 5)], false⟩,
      ⟨2, [(10, 1), (11, 2)], false⟩, ⟨3, [(11, 7)], true⟩] [] [] [] 3)
      [11] false).2.2 ⟨3, [(11, 7)], true⟩ (by decide) (by decide)).2.1⟩

/-- Every entity recorded by the reset/teardown loop at its emission point
carries the pending flag. -/
theorem resetTraceFrom_pending :
    ∀ (fuel : Nat) (w : World) (i : Nat) (s : World) (e : Entity),
      (s, e) ∈ resetTraceFrom w i fuel → e.bPendingDestroy = true := by
  intro fuel
  induction fuel with
  | zero =>
    intro w i s e h
    exact absurd h (List.not_mem_nil _)
  | succ fuel ih =>
    intro w i s e h
    unfold resetTraceFrom at h
    cases hg : w.entities.get? i with
    | none =>
      simp only [hg] at h
      exact absurd h (List.not_mem_nil _)
    | some e0 =>
      simp only [hg] at h
      by_cases hp : e0.bPendingDestroy = true
      · rw [if_pos hp] at h
        exact ih w (i + 1) s e h
      · rw [if_neg hp] at h
        rcases List.mem_cons.mp h with heq | htail
        · have : e = { e0 with bPendingDestroy := true } := congrArg Prod.snd heq
          rw [this]
        · exact ih _ (i + 1) s e htail

/-- C9: on every code path emitting OnEntityDestroyed for an entity
(destroy on a not-yet-pending entity, reset, world teardown), the
pending-destroy flag is set before the emission; hence at the recorded
emission state the entity is pending and is yielded by no each/all scan
with includePendingDestroy = false. -/
theorem C9_pending_flag_precedes_destroyed_emit :
    ∀ (w : World) (ref : Option Nat) (imm : Bool) (s : World) (e : Entity),
      ((s, e) ∈ w.destroyTrace ref imm ∨ (s, e) ∈ w.resetTrace ∨
        (s, e) ∈ w.teardownTrace) →
      e.bPendingDestroy = true ∧
      ∀ req : List TypeIndex, e ∉ s.eachYield req false ∧ e ∉ s.allYield false := by
  intro w ref imm s e hmem
  have hpend : e.bPendingDestroy = true := by
    rcases hmem with h | h | h
    · unfold World.destroyTrace at h
      cases ref with
      | none => exact absurd h (List.not_mem_nil _)
      | some entId =>
        cases hf : w.entities.find? (fun x => x.id = entId) with
        | none =>
          simp only [hf] at h
          exact absurd h (List.not_mem_nil _)
        | some e0 =>
          simp only [hf] at h
          by_cases hp : e0.bPendingDestroy = true
          · rw [if_pos hp] at h
            exact absurd h (List.not_mem_nil _)
          · rw [if_neg hp] at h
            have heq := List.mem_singleton.mp h
            have : e = { e0 with bPendingDestroy := true } :=
              congrArg Prod.snd heq
            rw [this]
    · exact resetTraceFrom_pending _ _ _ _ _ h
    · exact resetTraceFrom_pending _ _ _ _ _ h
  refine ⟨hpend, fun req => ⟨?_, ?_⟩⟩
  · rw [World.eachYield, viewYield_eq_filter]
    intro hin
    have := (List.mem_filter.mp hin).2
    rw [eachPred, hpend] at this
    simp at this
  · rw [World.allYield, viewYield_eq_filter]
    intro hin
    have := (List.mem_filter.mp hin).2
    rw [hpend] at this
    simp at this

/-- C9 witness: the theorem applied to the destroy-path emission of the
one-entity world. -/
theorem C9_pending_flag_precedes_destroyed_emit_witness :
    (⟨1, [], true⟩ : Entity).bPendingDestroy = true ∧
    (⟨1, [], true⟩ : Entity) ∉ (oneEntityWorld.markPending 1).eachYield [0] false ∧
    (⟨1, [], true⟩ : Entity) ∉ (oneEntityWorld.markPending 1).allYield false :=
  ⟨(C9_pending_flag_precedes_destroyed_emit oneEntityWorld (some 1) false
      (oneEntityWorld.markPending 1) ⟨1, [], true⟩ (Or.inl (by decide))).1,
   ((C9_pending_flag_precedes_destroyed_emit oneEntityWorld (some 1) false
      (oneEntityWorld.markPending 1) ⟨1, [], true⟩ (Or.inl (by decide))).2 [0]).1,
   ((C9_pending_flag_precedes_destroyed_emit oneEntityWorld (some 1) false
      (oneEntityWorld.markPending 1) ⟨1, [], true⟩ (Or.inl (by decide))).2 [0]).2⟩

/-- The receiver list `emit<T>` walks, written via the bucket lookup. -/
theorem emitReceivers_eq (w : World) (t : TypeIndex) :
    w.emitReceivers t
      = ((w.subscribers.find? (fun kv => kv.1 = t)).map (fun kv => kv.2)).getD [] := by
  cases hf : w.subscribers.find? (fun kv => kv.1 = t) <;>
    simp [World.emitReceivers, hf]

/-- One `subscribe` grows the emit bucket's multiplicity of `s` by one. -/
theorem subscribe_countSub (w : World) (t : TypeIndex) (s : SubId) :
    (w.subscribe t s).countSub t s = w.countSub t s + 1 := by
  rw [World.countSub, World.countSub, emitReceivers_eq, emitReceivers_eq]
  cases hf : w.subscribers.find? (fun kv => kv.1 = t) with
  | none =>
    simp only [World.subscribe, hf]
    rw [List.find?_append, hf]
    simp
  | some kv =>
    simp only [World.subscribe, hf]
    rw [assoc_find?_map_same t (fun b => b ++ [s]) w.subscribers, hf]
    simp [List.count_append]

/-- One `unsubscribe` removes every occurrence of `s` from the bucket. -/
theorem unsubscribe_countSub_zero (w : World) (t : TypeIndex) (s : SubId) :
    (w.unsubscribe t s).countSub t s = 0 := by
  rw [World.countSub, emitReceivers_eq]
  cases hf : w.subscribers.find? (fun kv => kv.1 = t) with
  | none =>
    simp only [World.unsubscribe, hf]
    simp [hf]
  | some kv =>
    simp only [World.unsubscribe, hf]
    by_cases hlen : (kv.2.filter (fun x => x ≠ s)).length = 0
    · rw [if_pos hlen]
      show (((List.find? _ (w.subscribers.filter fun kv2 => kv2.1 ≠ t)).map _).getD []).count s = 0
      rw [assoc_find?_filter_ne]
      rfl
    · rw [if_neg hlen]
      show (((List.find? _ (w.subscribers.map fun kv2 =>
          if kv2.1 = t then (kv2.1, kv.2.filter fun x => x ≠ s) else kv2)).map _).getD []).count s = 0
      rw [assoc_find?_map_same t (fun _ => kv.2.filter fun x => x ≠ s) w.subscribers, hf]
      show (kv.2.filter fun x => x ≠ s).count s = 0
      rw [List.count_eq_zero]
      intro hmem
      have := (List.mem_filter.mp hmem).2
      simp at this

/-- C10: subscribe appends unconditionally, so n subscriptions of the same
subscriber put n occurrences in the bucket and a single emit invokes its
receive hook exactly n times; one unsubscribe then removes every
occurrence at once. -/
theorem C10_subscribe_no_dedup_emit_n_times :
    ∀ (w : World) (t : TypeIndex) (s : SubId) (n : Nat),
      1 ≤ n → w.countSub t s = 0 →
      ((subscribeN w t s n).emitReceivers t).count s = n ∧
      ((subscribeN w t s n).unsubscribe t s).countSub t s = 0 := by
  intro w t s n _ h0
  have hiter : ∀ m : Nat, (subscribeN w t s m).countSub t s = m := by
    intro m
    induction m with
    | zero => exact h0
    | succ m ih =>
      show ((subscribeN w t s m).subscribe t s).countSub t s = m + 1
      rw [subscribe_countSub, ih]
  exact ⟨hiter n, unsubscribe_countSub_zero _ t s⟩

/-- C10 witness: the theorem applied to the empty world with two
subscriptions of subscriber 1 to event type 0. -/
theorem C10_subscribe_no_dedup_emit_n_times_witness :
    ((subscribeN World.emptyWorld 0 1 2).emitReceivers 0).count 1 = 2 ∧
    ((subscribeN World.emptyWorld 0 1 2).unsubscribe 0 1).countSub 0 1 = 0 :=
  C10_subscribe_no_dedup_emit_n_times World.emptyWorld 0 1 2 (by decide) (by decide)
